import Mathlib

/-!
# MIDI Show Control firmware: debounce / pause controller and command catalogue

A shallow embedding of `src/firmware/main.cpp` (the body of `setup()`, `loop()`,
`pauseMIDI()`, `passMIDI()`, `displayCommand()`) and of the declarations of
`src/firmware/msc.h`, followed by the properties proved about them.

Conventions of the embedding

* `unsigned int` globals whose values stay far below 2^16 are `Nat`.
* `millis()` is `unsigned long` (32 bit); `lastButtonPress` and `lastSysExTime`
  are `long` (32 bit, two's complement).  The stored value is an `Int` obtained
  with `toLong`, and `millis() - last` is computed modulo 2^32 by `elapsed`.
* Every value a tick reads from the outside world (pins, clock, MIDI port) is a
  field of `Input`.
* Calls that only act on the outside world are recorded as `Event`s, in program
  order; the relay pin and the MIDI thru switch are also kept in the state.
-/

namespace MSCFirmware

/-! ## Constants of `main.cpp` -/

def SYSEX_FLASH_TIME : Nat := 1000
def BACKLIGHT_OFF : Nat := 0x000000
def RED : Nat := 0xff0000
def GREEN : Nat := 0x00ff00
def BLUE : Nat := 0x0000ff
def DEBOUNCE_TIME : Nat := 300
def BTN_LOW : Nat := 20
def BTN_HIGH : Nat := 50
def BTN_MAX : Nat := 70

/-! ## 32-bit clock arithmetic -/

/-- Conversion `unsigned long -> long` performed by `lastButtonPress = millis()`. -/
def toLong (n : Nat) : Int :=
  if n % 2 ^ 32 < 2 ^ 31 then ((n % 2 ^ 32 : Nat) : Int)
  else ((n % 2 ^ 32 : Nat) : Int) - 2 ^ 32

/-- The expression `millis() - last` with `millis()` an `unsigned long` and
`last` a `long`: both operands are taken as `unsigned long`, the difference
wraps modulo 2^32. -/
def elapsed (now : Nat) (last : Int) : Nat :=
  (((now : Int) - last) % 2 ^ 32).toNat

/-! ## State, inputs and observable events -/

/-- Globals of `main.cpp`, the two function statics of `loop()`, and the two
outputs that `pauseMIDI` / `passMIDI` drive. -/
structure State where
  button_ctr : Nat
  button_state : Nat
  lastButtonPress : Int
  enable_button : Bool
  paused : Bool
  lastSysExTime : Int
  lcdIsBlue : Bool
  /-- Level last written to `RELAY_PIN` (`true` = HIGH). -/
  relay : Bool
  /-- MIDI thru switch (`true` after `turnThruOn`, `false` after `turnThruOff`). -/
  thru : Bool
deriving DecidableEq, Repr

/-- Everything one pass through `loop()` reads from outside. -/
structure Input where
  /-- Value of `digitalRead(A5)` at the top of `loop()` (`true` = HIGH). -/
  a5 : Bool
  /-- Outcome of `digitalRead(BUTTON_PIN) == LOW`, that is: the button is pressed. -/
  buttonLow : Bool
  /-- Value of `millis()` read inside the button block. -/
  msBtn : Nat
  /-- Value of `digitalRead(A5) == 1` read inside `passMIDI()`. -/
  a5Pass : Bool
  /-- Outcome of `MIDI.read()`: `some bytes` when a message arrived. -/
  midi : Option (List Nat)
  /-- Value of `millis()` read when a message is handled. -/
  msRx : Nat
  /-- Value of `millis()` read by the flash check at the end of `loop()`. -/
  msFlash : Nat
deriving DecidableEq, Repr

/-- Calls whose effect lies outside the program state. -/
inductive Event where
  | pauseMIDI
  | passMIDI
  | setBacklight (rgb : Nat)
  | updateLCD (packet : List Nat)
deriving DecidableEq, Repr

/-! ## `pauseMIDI`, `passMIDI`, `setup` -/

def pauseMIDI (s : State) : State × List Event :=
  ({ s with thru := false, relay := true }, [Event.pauseMIDI, Event.setBacklight RED])

def passMIDI (s : State) (a5 : Bool) : State × List Event :=
  ({ s with thru := true, relay := false },
   [Event.passMIDI, Event.setBacklight (if a5 then GREEN else 0x00FFFF)])

/-- Values of the globals and statics before `setup()` runs (their initialisers).
The relay pin of an unconfigured port reads LOW; `MIDI.begin()` is followed by
`passMIDI()`, which sets both outputs anyway. -/
def powerOn : State :=
  { button_ctr := 0, button_state := 0, lastButtonPress := 0, enable_button := false,
    paused := false, lastSysExTime := 0, lcdIsBlue := false, relay := false, thru := false }

/-- `setup()`: `setupLCD()` switches the backlight off, then `passMIDI()`. -/
def setup (a5 : Bool) : State × List Event :=
  let r := passMIDI powerOn a5
  (r.1, Event.setBacklight BACKLIGHT_OFF :: r.2)

/-! ## `loop()` in its four blocks -/

/-- Lines 195-206: sample the enable pin and advance the debounce counter. -/
def debounce (s : State) (i : Input) : State :=
  let s := { s with enable_button := i.a5 }
  if i.buttonLow then
    if s.button_ctr < BTN_MAX then { s with button_ctr := s.button_ctr + 1 } else s
  else
    if s.button_ctr > 0 then { s with button_ctr := s.button_ctr - 1 } else s

/-- Lines 208-224: the edge detector and the pause toggle. -/
def buttonBlock (s : State) (i : Input) : State × List Event :=
  if s.enable_button then
    if s.button_ctr < BTN_LOW ∧ s.button_state = 1 then
      ({ s with lastButtonPress := toLong i.msBtn, button_state := 0 }, [])
    else if s.button_ctr > BTN_HIGH ∧ s.button_state = 0 then
      if elapsed i.msBtn s.lastButtonPress > DEBOUNCE_TIME then
        let s := { s with button_state := 1, paused := !s.paused }
        if s.paused then pauseMIDI s else passMIDI s i.a5Pass
      else (s, [])
    else (s, [])
  else (s, [])

/-- Lines 226-245: a received message starts the blue flash. -/
def midiBlock (s : State) (i : Input) : State × List Event :=
  match i.midi with
  | some packet =>
      ({ s with lastSysExTime := toLong i.msRx, lcdIsBlue := true },
       [Event.setBacklight BLUE, Event.updateLCD packet])
  | none => (s, [])

/-- Lines 247-260: end of the blue flash. -/
def flashBlock (s : State) (i : Input) : State × List Event :=
  if s.lcdIsBlue ∧ elapsed i.msFlash s.lastSysExTime > SYSEX_FLASH_TIME then
    ({ s with lcdIsBlue := false },
     [Event.setBacklight
        (if s.enable_button then (if s.paused then RED else GREEN) else 0x00FFFF)])
  else (s, [])

/-- One pass through `loop()`: the new state and the events in program order. -/
def loop (s : State) (i : Input) : State × List Event :=
  let s1 := debounce s i
  let r2 := buttonBlock s1 i
  let r3 := midiBlock r2.1 i
  let r4 := flashBlock r3.1 i
  (r4.1, r2.2 ++ r3.2 ++ r4.2)

/-- Repeated calls of `loop()`, one per element of `inputs`. -/
def runLoop (s : State) : List Input → State
  | [] => s
  | i :: rest => runLoop (loop s i).1 rest

/-- Colour of the last `setBacklight` request in a list of events, if any. -/
def lastBacklight : List Event → Option Nat
  | [] => none
  | Event.setBacklight rgb :: rest =>
      match lastBacklight rest with
      | some c => some c
      | none => some rgb
  | _ :: rest => lastBacklight rest

/-- The `msBtn` clock readings of the ticks that change `paused`, in tick order. -/
def flipTimes (s : State) : List Input → List Nat
  | [] => []
  | i :: rest =>
      if (loop s i).1.paused ≠ s.paused then i.msBtn :: flipTimes (loop s i).1 rest
      else flipTimes (loop s i).1 rest

/-- Whether the test `millis() - lastButtonPress > DEBOUNCE_TIME` would succeed in
every tick of a run (the time guard never blocks). -/
def guardOpen (s : State) : List Input → Bool
  | [] => true
  | i :: rest =>
      decide (elapsed i.msBtn s.lastButtonPress > DEBOUNCE_TIME) && guardOpen (loop s i).1 rest

/-- A tick with the given button sample, the enable pin HIGH, the clock at `ms`
and no MIDI traffic. -/
def sampleTick (ms : Nat) (pressed : Bool) : Input :=
  { a5 := true, buttonLow := pressed, msBtn := ms, a5Pass := true, midi := none,
    msRx := ms, msFlash := ms }

/-- Lengths of the maximal runs of equal consecutive samples are all below `n`. -/
def runsShorterThan (n : Nat) (samples : List Bool) : Bool :=
  (samples.splitBy (fun a b => a == b)).all (fun run => decide (run.length < n))

/-! ## `msc.h`: the enumerations -/

/-- Enumerators of `COMMAND`. -/
inductive COMMAND where
  | GO | STOP | RESUME | TIMED_GO | LOAD | SET | FIRE | ALL_OFF | RESTORE | RESET | GO_OFF
  | STANDBY_PLUS | STANDBY_MINUS | SEQUENCE_PLUS | SEQUENCE_MINUS
deriving DecidableEq, Repr, Fintype

/-- Integer value of each `COMMAND` enumerator (`GO = 0x01`, consecutive up to
`GO_OFF`, then `STANDBY_PLUS = 0x11` and consecutive). -/
def COMMAND.toInt : COMMAND → Int
  | .GO => 0x01 | .STOP => 0x02 | .RESUME => 0x03 | .TIMED_GO => 0x04 | .LOAD => 0x05
  | .SET => 0x06 | .FIRE => 0x07 | .ALL_OFF => 0x08 | .RESTORE => 0x09 | .RESET => 0x0A
  | .GO_OFF => 0x0B
  | .STANDBY_PLUS => 0x11 | .STANDBY_MINUS => 0x12 | .SEQUENCE_PLUS => 0x13
  | .SEQUENCE_MINUS => 0x14

def MAX_CUE_LEN : Nat := 8
def MAX_LIST_LEN : Nat := 8

/-! ## `displayCommand` and its string table -/

def invalid_str : String := "INVALID"

def msc_command_type_strings : List String :=
  [ invalid_str, "GO", "STOP", "RESUME", "TIMED GO", "LOAD", "SET", "FIRE", "ALL OFF",
    "RESTORE", "RESET", "GO-OFF", invalid_str, invalid_str, invalid_str, invalid_str,
    invalid_str, "STANDBY+", "STANDBY-", "SEQUENCE+", "SEQUENCE-" ]

/-- The text `displayCommand(cmd)` prints after clearing the field.  The bound is
`sizeof(msc_command_type_strings)/sizeof(char*)`, the number of entries; the
table access is a checked one, `none` standing for an access outside the array. -/
def displayCommand (cmd : Int) : Option String :=
  if cmd < 0 ∨ cmd ≥ (msc_command_type_strings.length : Int) then some invalid_str
  else msc_command_type_strings[cmd.toNat]?

/-! ## The `MSC` record and its constructor

`msc.h` declares the class; the constructor body is not part of the sources, so
the decoder below follows section 4.1 of the specification. -/

/-- The `TYPE` enumerators of `msc.h`, with the `Unknown` value the specification
adds for every other byte. -/
inductive TYPE where
  | LIGHT | SOUND | FIREWORKS | ALL | Unknown
deriving DecidableEq, Repr

/-- Private members of class `MSC`.  `cue` and `list` hold the bytes written to the
`char[MAX_CUE_LEN + 1]` arrays, from index 0 up to and including the NUL. -/
structure MSC where
  id : Nat
  type : TYPE
  command : Option Nat
  cue : List Nat
  list : List Nat
  data : List Nat
  length : Nat
deriving DecidableEq, Repr

/-- Modelled from the spec: the parts of the frame format that the constructor
`MSC::MSC` fixes and the specification leaves open (header offsets, header
length, terminator byte, which commands carry a cue or a list number, and
whether fields are extracted for an unknown type). -/
structure FrameLayout where
  idOffset : Nat
  typeOffset : Nat
  commandOffset : Nat
  headerLen : Nat
  terminator : Nat
  carriesCue : Nat → Bool
  carriesList : Nat → Bool
  extractUnknown : Bool

/-- Result of scanning one ASCII field: the characters kept, the index after the
field, and the buffer indices that were read. -/
structure FieldScan where
  chars : List Nat
  next : Nat
  reads : List Nat
deriving DecidableEq, Repr

/-- An `MSC` record together with the indices of the input buffer that the
constructor read. -/
structure Decoded where
  packet : MSC
  reads : List Nat
deriving DecidableEq, Repr

/-- Modelled from the spec: reading one header byte in `MSC::MSC` (step 1 of
section 4.1): a byte beyond `len` is not read and counts as 0. -/
def readHeader (buf : List Nat) (len off : Nat) : Nat × List Nat :=
  if off < len then (buf.getD off 0, [off]) else (0, [])

/-- Modelled from the spec: the type mapping of `MSC::MSC` (step 2 of section
4.1), with the byte codes of `TYPE` in `msc.h`. -/
def typeOfByte (b : Nat) : TYPE :=
  if b = 0x01 then TYPE.LIGHT
  else if b = 0x10 then TYPE.SOUND
  else if b = 0x61 then TYPE.FIREWORKS
  else if b = 0x7f then TYPE.ALL
  else TYPE.Unknown

/-- Modelled from the spec: the command mapping of `MSC::MSC` (step 3 of section
4.1): a byte that the catalogue does not name is `Invalid` (`none`). -/
def commandOfByte (b : Nat) : Option Nat :=
  if displayCommand (b : Int) = some invalid_str then none else some b

/-- Modelled from the spec: the field scan of `MSC::MSC` (step 4 of section 4.1).
From `pos`, with `remaining` bytes left before the end of the buffer, bytes are
read until the terminator or the end of the buffer; the first `cap` of them are
kept, the rest discarded. -/
def scanField (buf : List Nat) (term cap : Nat) : Nat → Nat → List Nat → FieldScan
  | 0, pos, chars => { chars := chars, next := pos, reads := [] }
  | remaining + 1, pos, chars =>
      if buf.getD pos 0 = term then { chars := chars, next := pos + 1, reads := [pos] }
      else
        let r := scanField buf term cap remaining (pos + 1)
          (if chars.length < cap then chars ++ [buf.getD pos 0] else chars)
        { r with reads := pos :: r.reads }

/-- Modelled from the spec: the constructor `MSC::MSC(const byte* packet, int len)`
(steps 1 to 6 of section 4.1), which `msc.h` declares and no source file defines. -/
def decode (L : FrameLayout) (buf : List Nat) (len : Nat) : Decoded :=
  let idR := readHeader buf len L.idOffset
  let tyR := readHeader buf len L.typeOffset
  let cmR := readHeader buf len L.commandOffset
  if len < L.headerLen then
    { packet := { id := idR.1, type := typeOfByte tyR.1, command := commandOfByte cmR.1,
                  cue := [0], list := [0], data := buf, length := len },
      reads := idR.2 ++ tyR.2 ++ cmR.2 }
  else
    let fields : Bool := decide (typeOfByte tyR.1 ≠ TYPE.Unknown) || L.extractUnknown
    let cueScan : FieldScan :=
      if fields && L.carriesCue cmR.1 then
        scanField buf L.terminator MAX_CUE_LEN (len - L.headerLen) L.headerLen []
      else { chars := [], next := L.headerLen, reads := [] }
    let listScan : FieldScan :=
      if fields && L.carriesList cmR.1 then
        scanField buf L.terminator MAX_LIST_LEN (len - cueScan.next) cueScan.next []
      else { chars := [], next := cueScan.next, reads := [] }
    { packet := { id := idR.1, type := typeOfByte tyR.1, command := commandOfByte cmR.1,
                  cue := cueScan.chars ++ [0], list := listScan.chars ++ [0],
                  data := buf, length := len },
      reads := idR.2 ++ tyR.2 ++ cmR.2 ++ cueScan.reads ++ listScan.reads }

/-- The C string stored in a `char` array: the bytes before the first NUL. -/
def cstr (bytes : List Nat) : List Nat :=
  bytes.takeWhile (fun b => b != 0)

/-! ## Concrete states and runs used as examples -/

/-- The state after `setup()` with the debounce counter at `BTN_HIGH`: one more
pressed sample takes it above the threshold. -/
def primed : State :=
  { (setup true).1 with button_ctr := 50 }

/-- A paused, enabled controller that has just received a message at 2000 ms:
51 pressed samples after `setup()` (the 51st toggles `paused`), then one tick in
which `MIDI.read()` delivers a frame. -/
def pausedAfterMessage : State :=
  (loop (runLoop (setup true).1 (List.replicate 51 (sampleTick 1000 true)))
    { sampleTick 2000 true with midi := some [0xF0, 0x7F, 0x01, 0x02, 0x10, 0x01, 0xF7] }).1

/-- A run with two presses: 51 pressed samples at 1000 ms, 32 released samples
at 1100 ms, 51 pressed samples at 1500 ms. -/
def twoPresses : List Input :=
  List.replicate 51 (sampleTick 1000 true) ++ List.replicate 32 (sampleTick 1100 false) ++
    List.replicate 51 (sampleTick 1500 true)

/-- Button samples in runs of 29, 1 and 23: every run is shorter than 30. -/
def shortRuns : List Bool :=
  List.replicate 29 true ++ [false] ++ List.replicate 23 true

/-- Button samples in runs of 29, 29 and 21, never more than 50 pressed samples
ahead of the released ones. -/
def balancedRuns : List Bool :=
  List.replicate 29 true ++ List.replicate 29 false ++ List.replicate 21 true

/-- Number of pressed samples in a stretch of ticks. -/
def pressedCount (ticks : List Input) : Nat :=
  ticks.countP (fun x => x.buttonLow)

/-- Number of released samples in a stretch of ticks. -/
def releasedCount (ticks : List Input) : Nat :=
  ticks.countP (fun x => !x.buttonLow)

/-- A frame layout in the usual MSC order (F0 7F id 02 format command data... F7):
device id at offset 2, type at 4, command at 5, cue text from offset 6, NUL
between fields; every command carries a cue and a list number. -/
def standardLayout : FrameLayout :=
  { idOffset := 2, typeOffset := 4, commandOffset := 5, headerLen := 6, terminator := 0,
    carriesCue := fun _ => true, carriesList := fun _ => true, extractUnknown := false }

/-- A Sound GO frame for device 1 whose cue field is the twelve digits
"123456789012", followed by the list number "7". -/
def longCueFrame : List Nat :=
  [0xF0, 0x7F, 0x01, 0x02, 0x10, 0x01,
   0x31, 0x32, 0x33, 0x34, 0x35, 0x36, 0x37, 0x38, 0x39, 0x30, 0x31, 0x32, 0x00,
   0x37, 0x00, 0xF7]

/-! ## Basic facts about one tick -/

theorem debounce_ctr (s : State) (i : Input) :
    (debounce s i).button_ctr =
      if i.buttonLow then (if s.button_ctr < 70 then s.button_ctr + 1 else s.button_ctr)
      else (if 0 < s.button_ctr then s.button_ctr - 1 else s.button_ctr) := by
  unfold debounce BTN_MAX
  by_cases hb : i.buttonLow = true
  · by_cases hc : s.button_ctr < 70 <;> simp [hb, hc]
  · by_cases hc : 0 < s.button_ctr <;> simp [hb, hc]

theorem debounce_frame (s : State) (i : Input) :
    (debounce s i).button_state = s.button_state ∧
    (debounce s i).lastButtonPress = s.lastButtonPress ∧
    (debounce s i).paused = s.paused ∧
    (debounce s i).enable_button = i.a5 ∧
    (debounce s i).lastSysExTime = s.lastSysExTime ∧
    (debounce s i).lcdIsBlue = s.lcdIsBlue ∧
    (debounce s i).relay = s.relay ∧
    (debounce s i).thru = s.thru := by
  unfold debounce
  by_cases hb : i.buttonLow = true
  · by_cases hc : s.button_ctr < BTN_MAX <;> simp [hb, hc]
  · by_cases hc : s.button_ctr > 0 <;> simp [hb, hc]

theorem midiBlock_frame (s : State) (i : Input) :
    (midiBlock s i).1.button_ctr = s.button_ctr ∧
    (midiBlock s i).1.button_state = s.button_state ∧
    (midiBlock s i).1.lastButtonPress = s.lastButtonPress ∧
    (midiBlock s i).1.paused = s.paused ∧
    (midiBlock s i).1.enable_button = s.enable_button ∧
    (midiBlock s i).1.relay = s.relay ∧
    (midiBlock s i).1.thru = s.thru ∧
    Event.pauseMIDI ∉ (midiBlock s i).2 ∧ Event.passMIDI ∉ (midiBlock s i).2 := by
  unfold midiBlock
  cases i.midi <;> simp

theorem flashBlock_frame (s : State) (i : Input) :
    (flashBlock s i).1.button_ctr = s.button_ctr ∧
    (flashBlock s i).1.button_state = s.button_state ∧
    (flashBlock s i).1.lastButtonPress = s.lastButtonPress ∧
    (flashBlock s i).1.paused = s.paused ∧
    (flashBlock s i).1.enable_button = s.enable_button ∧
    (flashBlock s i).1.lastSysExTime = s.lastSysExTime ∧
    (flashBlock s i).1.relay = s.relay ∧
    (flashBlock s i).1.thru = s.thru ∧
    Event.pauseMIDI ∉ (flashBlock s i).2 ∧ Event.passMIDI ∉ (flashBlock s i).2 := by
  unfold flashBlock
  split <;> simp

/-- The button-related part of the state after a tick is the one the button block
leaves; the two later blocks add no `pauseMIDI` / `passMIDI` call. -/
theorem loop_button_part (s : State) (i : Input) :
    (loop s i).1.button_ctr = (buttonBlock (debounce s i) i).1.button_ctr ∧
    (loop s i).1.button_state = (buttonBlock (debounce s i) i).1.button_state ∧
    (loop s i).1.lastButtonPress = (buttonBlock (debounce s i) i).1.lastButtonPress ∧
    (loop s i).1.paused = (buttonBlock (debounce s i) i).1.paused ∧
    (loop s i).1.enable_button = (buttonBlock (debounce s i) i).1.enable_button ∧
    (loop s i).1.relay = (buttonBlock (debounce s i) i).1.relay ∧
    (loop s i).1.thru = (buttonBlock (debounce s i) i).1.thru ∧
    (Event.pauseMIDI ∈ (loop s i).2 ↔ Event.pauseMIDI ∈ (buttonBlock (debounce s i) i).2) ∧
    (Event.passMIDI ∈ (loop s i).2 ↔ Event.passMIDI ∈ (buttonBlock (debounce s i) i).2) := by
  have hm := midiBlock_frame (buttonBlock (debounce s i) i).1 i
  have hf := flashBlock_frame (midiBlock (buttonBlock (debounce s i) i).1 i).1 i
  obtain ⟨m1, m2, m3, m4, m5, m6, m7, m8, m9⟩ := hm
  obtain ⟨f1, f2, f3, f4, f5, _, f6, f7, f8, f9⟩ := hf
  unfold loop
  simp only [List.mem_append]
  refine ⟨by rw [f1, m1], by rw [f2, m2], by rw [f3, m3], by rw [f4, m4], by rw [f5, m5],
    by rw [f6, m6], by rw [f7, m7], ?_, ?_⟩
  · constructor
    · rintro ((h | h) | h)
      · exact h
      · exact absurd h m8
      · exact absurd h f8
    · intro h; exact Or.inl (Or.inl h)
  · constructor
    · rintro ((h | h) | h)
      · exact h
      · exact absurd h m9
      · exact absurd h f9
    · intro h; exact Or.inl (Or.inl h)

/-- What the button block does, case by case, on the fields it can touch. -/
theorem buttonBlock_cases (s : State) (i : Input) :
    (buttonBlock s i).1.button_ctr = s.button_ctr ∧
    (buttonBlock s i).1.enable_button = s.enable_button ∧
    ((s.enable_button = true ∧ s.button_ctr < 20 ∧ s.button_state = 1 ∧
        (buttonBlock s i).1.button_state = 0 ∧
        (buttonBlock s i).1.lastButtonPress = toLong i.msBtn ∧
        (buttonBlock s i).1.paused = s.paused ∧
        (buttonBlock s i).1.relay = s.relay ∧ (buttonBlock s i).1.thru = s.thru ∧
        (buttonBlock s i).2 = []) ∨
     (s.enable_button = true ∧ 50 < s.button_ctr ∧ s.button_state = 0 ∧
        300 < elapsed i.msBtn s.lastButtonPress ∧
        (buttonBlock s i).1.button_state = 1 ∧
        (buttonBlock s i).1.lastButtonPress = s.lastButtonPress ∧
        (buttonBlock s i).1.paused = (!s.paused) ∧
        (buttonBlock s i).1.relay = (!s.paused) ∧ (buttonBlock s i).1.thru = s.paused ∧
        (Event.pauseMIDI ∈ (buttonBlock s i).2 ↔ s.paused = false) ∧
        (Event.passMIDI ∈ (buttonBlock s i).2 ↔ s.paused = true)) ∨
     (¬ (s.enable_button = true ∧ s.button_ctr < 20 ∧ s.button_state = 1) ∧
      ¬ (s.enable_button = true ∧ 50 < s.button_ctr ∧ s.button_state = 0 ∧
          300 < elapsed i.msBtn s.lastButtonPress) ∧
        (buttonBlock s i).1.button_state = s.button_state ∧
        (buttonBlock s i).1.lastButtonPress = s.lastButtonPress ∧
        (buttonBlock s i).1.paused = s.paused ∧
        (buttonBlock s i).1.relay = s.relay ∧ (buttonBlock s i).1.thru = s.thru ∧
        (buttonBlock s i).2 = [])) := by
  unfold buttonBlock pauseMIDI passMIDI BTN_LOW BTN_HIGH DEBOUNCE_TIME
  by_cases he : s.enable_button = true
  · by_cases hlow : s.button_ctr < 20 ∧ s.button_state = 1
    · simp [he, hlow]
    · by_cases hhigh : s.button_ctr > 50 ∧ s.button_state = 0
      · by_cases hg : elapsed i.msBtn s.lastButtonPress > 300
        · have h1 : ¬ s.button_ctr < 20 := by omega
          cases hp : s.paused <;> simp [he, hhigh, hg, h1, hp]
        · have h1 : ¬ s.button_ctr < 20 := by omega
          simp [he, hhigh, hg, h1]
      · have h3 : ¬ (50 < s.button_ctr ∧ s.button_state = 0 ∧
            300 < elapsed i.msBtn s.lastButtonPress) := fun h => hhigh ⟨h.1, h.2.1⟩
        rw [if_pos he, if_neg hlow, if_neg hhigh]
        exact ⟨rfl, rfl, Or.inr (Or.inr ⟨fun h => hlow h.2, fun h => h3 h.2,
          rfl, rfl, rfl, rfl, rfl, rfl⟩)⟩
  · simp [he]

/-- One tick of `loop()` on the debounce and pause fields: a falling edge, a
rising edge with toggle, or no change.  `c` is the counter after this tick's
update. -/
theorem loop_cases (s : State) (i : Input) :
    (loop s i).1.button_ctr = (debounce s i).button_ctr ∧
    ((i.a5 = true ∧ (debounce s i).button_ctr < 20 ∧ s.button_state = 1 ∧
        (loop s i).1.button_state = 0 ∧
        (loop s i).1.lastButtonPress = toLong i.msBtn ∧
        (loop s i).1.paused = s.paused ∧
        (loop s i).1.relay = s.relay ∧ (loop s i).1.thru = s.thru ∧
        Event.pauseMIDI ∉ (loop s i).2 ∧ Event.passMIDI ∉ (loop s i).2) ∨
     (i.a5 = true ∧ 50 < (debounce s i).button_ctr ∧ s.button_state = 0 ∧
        300 < elapsed i.msBtn s.lastButtonPress ∧
        (loop s i).1.button_state = 1 ∧
        (loop s i).1.lastButtonPress = s.lastButtonPress ∧
        (loop s i).1.paused = (!s.paused) ∧
        (loop s i).1.relay = (!s.paused) ∧ (loop s i).1.thru = s.paused ∧
        (Event.pauseMIDI ∈ (loop s i).2 ↔ s.paused = false) ∧
        (Event.passMIDI ∈ (loop s i).2 ↔ s.paused = true)) ∨
     (¬ (i.a5 = true ∧ (debounce s i).button_ctr < 20 ∧ s.button_state = 1) ∧
      ¬ (i.a5 = true ∧ 50 < (debounce s i).button_ctr ∧ s.button_state = 0 ∧
          300 < elapsed i.msBtn s.lastButtonPress) ∧
        (loop s i).1.button_state = s.button_state ∧
        (loop s i).1.lastButtonPress = s.lastButtonPress ∧
        (loop s i).1.paused = s.paused ∧
        (loop s i).1.relay = s.relay ∧ (loop s i).1.thru = s.thru ∧
        Event.pauseMIDI ∉ (loop s i).2 ∧ Event.passMIDI ∉ (loop s i).2)) := by
  obtain ⟨l1, l2, l3, l4, _, l6, l7, l8, l9⟩ := loop_button_part s i
  obtain ⟨d2, d3, d4, d5, _, _, d8, d9⟩ := debounce_frame s i
  obtain ⟨b1, _, hb⟩ := buttonBlock_cases (debounce s i) i
  rw [l1, l2, l3, l4, l6, l7, l8, l9, b1]
  rw [d2, d3, d4, d5, d8, d9] at hb
  refine ⟨rfl, ?_⟩
  rcases hb with h | h | h
  · obtain ⟨h1, h2, h3, h4, h5, h6, h7, h8, h9⟩ := h
    exact Or.inl ⟨h1, h2, h3, h4, h5, h6, h7, h8, by simp [h9], by simp [h9]⟩
  · exact Or.inr (Or.inl h)
  · obtain ⟨h1, h2, h3, h4, h5, h6, h7, h8⟩ := h
    exact Or.inr (Or.inr ⟨h1, h2, h3, h4, h5, h6, h7, by simp [h8], by simp [h8]⟩)

theorem runLoop_ctr_le (s : State) (inputs : List Input) (h : s.button_ctr ≤ 70) :
    (runLoop s inputs).button_ctr ≤ 70 := by
  induction inputs generalizing s with
  | nil => exact h
  | cons x xs ih =>
    simp only [runLoop]
    apply ih
    rw [(loop_cases s x).1, debounce_ctr]
    split <;> split <;> omega

/-! ## C2: the debounce counter stays in [0, 70] -/

/-- C2. Starting from `button_ctr = 0`, after any sequence of ticks `before` and
one more tick `i`, the debounce counter is at most 70 before and after the tick
(it is a natural number, so at least 0); a pressed sample adds 1 unless the
counter is 70, a released sample subtracts 1 unless the counter is 0. -/
theorem counter_stays_in_range (s : State) (before : List Input) (i : Input)
    (h0 : s.button_ctr = 0) :
    (runLoop s before).button_ctr ≤ 70 ∧
    (loop (runLoop s before) i).1.button_ctr ≤ 70 ∧
    (i.buttonLow = true →
      (loop (runLoop s before) i).1.button_ctr =
        if (runLoop s before).button_ctr = 70 then 70
        else (runLoop s before).button_ctr + 1) ∧
    (i.buttonLow = false →
      (loop (runLoop s before) i).1.button_ctr =
        if (runLoop s before).button_ctr = 0 then 0
        else (runLoop s before).button_ctr - 1) := by
  have hb : (runLoop s before).button_ctr ≤ 70 := runLoop_ctr_le s before (by omega)
  have hstep := (loop_cases (runLoop s before) i).1
  rw [debounce_ctr] at hstep
  refine ⟨hb, ?_, ?_, ?_⟩
  · rw [hstep]; split <;> split <;> omega
  · intro hp
    rw [hstep, if_pos hp]
    split <;> split <;> omega
  · intro hp
    rw [hstep, hp]
    simp only [Bool.false_eq_true, if_false]
    split <;> split <;> omega

/-- C2 at a concrete run: 71 pressed samples from the power-on state, then one
more pressed sample. -/
theorem counter_stays_in_range_witness :
    (setup true).1.button_ctr = 0 ∧
    (runLoop (setup true).1 (List.replicate 71 (sampleTick 5 true))).button_ctr ≤ 70 ∧
    (loop (runLoop (setup true).1 (List.replicate 71 (sampleTick 5 true)))
        (sampleTick 6 true)).1.button_ctr ≤ 70 :=
  ⟨rfl,
   (counter_stays_in_range (setup true).1 (List.replicate 71 (sampleTick 5 true))
      (sampleTick 6 true) rfl).1,
   (counter_stays_in_range (setup true).1 (List.replicate 71 (sampleTick 5 true))
      (sampleTick 6 true) rfl).2.1⟩

/-! ## C4: a tick with the enable input low -/

/-- C4. In a tick whose enable sample (`digitalRead(A5)`) is false, `paused`,
`button_state` and `lastButtonPress` keep their values, neither `pauseMIDI` nor
`passMIDI` is called, and `button_ctr` still moves by the saturating rule: up by
one on a pressed sample while below 70, down by one on a released sample while
above 0. -/
theorem disabled_tick_only_counts (s : State) (i : Input) (hen : i.a5 = false) :
    (loop s i).1.paused = s.paused ∧
    (loop s i).1.button_state = s.button_state ∧
    (loop s i).1.lastButtonPress = s.lastButtonPress ∧
    Event.pauseMIDI ∉ (loop s i).2 ∧ Event.passMIDI ∉ (loop s i).2 ∧
    (loop s i).1.button_ctr =
      (if i.buttonLow then (if s.button_ctr < 70 then s.button_ctr + 1 else s.button_ctr)
       else (if 0 < s.button_ctr then s.button_ctr - 1 else s.button_ctr)) := by
  obtain ⟨hc, h⟩ := loop_cases s i
  rw [debounce_ctr] at hc
  rcases h with h | h | h
  · rw [hen] at h; exact absurd h.1 (by decide)
  · rw [hen] at h; exact absurd h.1 (by decide)
  · obtain ⟨_, _, h3, h4, h5, _, _, h8, h9⟩ := h
    exact ⟨h5, h3, h4, h8, h9, hc⟩

/-- C4 at a concrete tick: counter at 50, button pressed, enable low. -/
theorem disabled_tick_only_counts_witness :
    (loop primed { sampleTick 1000 true with a5 := false }).1.paused = primed.paused ∧
    (loop primed { sampleTick 1000 true with a5 := false }).1.button_state = 0 ∧
    (loop primed { sampleTick 1000 true with a5 := false }).1.button_ctr = 51 :=
  ⟨(disabled_tick_only_counts primed { sampleTick 1000 true with a5 := false } rfl).1,
   (disabled_tick_only_counts primed { sampleTick 1000 true with a5 := false } rfl).2.1,
   (disabled_tick_only_counts primed { sampleTick 1000 true with a5 := false } rfl).2.2.2.2.2⟩

/-! ## C10: hysteresis of the stable button state -/

/-- C10. For every state and tick: `button_state` goes from 0 to 1 only when the
updated counter is above 50, from 1 to 0 only when the updated counter is below
20, it changes in no other way, it and `paused` are unchanged when the updated
counter lies in [20, 50], and `paused` is flipped exactly in the ticks in which
`button_state` goes from 0 to 1. -/
theorem hysteresis_rule (s : State) (i : Input) :
    ((s.button_state = 0 ∧ (loop s i).1.button_state = 1) → 50 < (loop s i).1.button_ctr) ∧
    ((s.button_state = 1 ∧ (loop s i).1.button_state = 0) → (loop s i).1.button_ctr < 20) ∧
    ((loop s i).1.button_state ≠ s.button_state →
      (s.button_state = 0 ∧ (loop s i).1.button_state = 1) ∨
      (s.button_state = 1 ∧ (loop s i).1.button_state = 0)) ∧
    ((20 ≤ (loop s i).1.button_ctr ∧ (loop s i).1.button_ctr ≤ 50) →
      (loop s i).1.button_state = s.button_state ∧ (loop s i).1.paused = s.paused) ∧
    ((loop s i).1.paused ≠ s.paused ↔
      (s.button_state = 0 ∧ (loop s i).1.button_state = 1)) := by
  obtain ⟨hc, h⟩ := loop_cases s i
  rw [hc]
  rcases h with h | h | h
  · obtain ⟨_, h2, h3, h4, _, h6, _⟩ := h
    rw [h4, h6, h3]
    refine ⟨?_, ?_, ?_, ?_, ?_⟩
    · intro h; omega
    · intro _; exact h2
    · intro _; exact Or.inr ⟨rfl, rfl⟩
    · intro h; omega
    · simp
  · obtain ⟨_, h2, h3, _, h5, _, h7, _⟩ := h
    rw [h5, h7, h3]
    refine ⟨?_, ?_, ?_, ?_, ?_⟩
    · intro _; exact h2
    · intro h; omega
    · intro _; exact Or.inl ⟨rfl, rfl⟩
    · intro h; omega
    · cases s.paused <;> simp
  · obtain ⟨_, _, h3, _, h5, _⟩ := h
    rw [h3, h5]
    refine ⟨?_, ?_, ?_, ?_, ?_⟩
    · intro h; omega
    · intro h; omega
    · intro h; exact absurd rfl h
    · intro _; exact ⟨rfl, rfl⟩
    · constructor
      · intro h; exact absurd rfl h
      · intro h; omega

/-! ## C3: the toggle tick -/

/-- C3, as stated, fails in two ways.  With exactly 300 ms elapsed the tick does
not toggle: the test is `millis() - lastButtonPress > DEBOUNCE_TIME`.  With 1000 ms
elapsed the tick toggles but `lastButtonPress` keeps its old value 0 instead of
the current time 1000. -/
theorem toggle_claim_fails :
    ((sampleTick 300 true).a5 = true ∧ primed.button_state = 0 ∧
      50 < (loop primed (sampleTick 300 true)).1.button_ctr ∧
      300 ≤ elapsed (sampleTick 300 true).msBtn primed.lastButtonPress ∧
      (loop primed (sampleTick 300 true)).1.paused = primed.paused) ∧
    ((sampleTick 1000 true).a5 = true ∧ primed.button_state = 0 ∧
      50 < (loop primed (sampleTick 1000 true)).1.button_ctr ∧
      300 ≤ elapsed (sampleTick 1000 true).msBtn primed.lastButtonPress ∧
      (loop primed (sampleTick 1000 true)).1.paused = (!primed.paused) ∧
      (loop primed (sampleTick 1000 true)).1.lastButtonPress = 0 ∧
      (0 : Int) ≠ toLong (sampleTick 1000 true).msBtn) := by
  decide

/-- C3, amended. In a tick with the enable input asserted, `button_state == 0`,
the updated counter above 50 and more than 300 ms elapsed
(`millis() - lastButtonPress > 300`), `paused` is flipped, `button_state` becomes 1
and `lastButtonPress` keeps its value. -/
theorem toggle_tick (s : State) (i : Input) (hen : i.a5 = true)
    (hst : s.button_state = 0) (hctr : 50 < (loop s i).1.button_ctr)
    (hguard : 300 < elapsed i.msBtn s.lastButtonPress) :
    (loop s i).1.paused = (!s.paused) ∧
    (loop s i).1.button_state = 1 ∧
    (loop s i).1.lastButtonPress = s.lastButtonPress := by
  obtain ⟨hc, h⟩ := loop_cases s i
  rw [hc] at hctr
  rcases h with h | h | h
  · omega
  · obtain ⟨_, _, _, _, h5, h6, h7, _⟩ := h
    exact ⟨h7, h5, h6⟩
  · exact absurd ⟨hen, hctr, hst, hguard⟩ h.2.1

/-- C3 amended, at a concrete tick: counter 50 -> 51, 1000 ms on the clock. -/
theorem toggle_tick_witness :
    (loop primed (sampleTick 1000 true)).1.paused = (!primed.paused) ∧
    (loop primed (sampleTick 1000 true)).1.button_state = 1 ∧
    (loop primed (sampleTick 1000 true)).1.lastButtonPress = primed.lastButtonPress :=
  toggle_tick primed (sampleTick 1000 true) rfl rfl (by decide) (by decide)

/-! ## C9: relay and MIDI thru follow `paused` -/

theorem outputs_agree_step (s : State) (i : Input)
    (h : s.relay = s.paused ∧ s.thru = (!s.paused)) :
    (loop s i).1.relay = (loop s i).1.paused ∧ (loop s i).1.thru = (!(loop s i).1.paused) := by
  obtain ⟨_, hc⟩ := loop_cases s i
  rcases hc with hc | hc | hc
  · obtain ⟨_, _, _, _, _, h6, h7, h8, _⟩ := hc
    rw [h6, h7, h8]; exact h
  · obtain ⟨_, _, _, _, _, _, h7, h8, h9, _⟩ := hc
    rw [h7, h8, h9]; simp
  · obtain ⟨_, _, _, _, h5, h6, h7, _⟩ := hc
    rw [h5, h6, h7]; exact h

theorem outputs_agree_run (s : State) (inputs : List Input)
    (h : s.relay = s.paused ∧ s.thru = (!s.paused)) :
    (runLoop s inputs).relay = (runLoop s inputs).paused ∧
    (runLoop s inputs).thru = (!(runLoop s inputs).paused) := by
  induction inputs generalizing s with
  | nil => exact h
  | cons x xs ih => exact ih _ (outputs_agree_step s x h)

/-- C9. After `setup()` and after every further tick of `loop()`, whatever the
inputs, the relay pin is HIGH exactly when `paused` is true and MIDI thru is on
exactly when `paused` is false.  In any tick from any state, a flip of `paused`
comes with a call of `pauseMIDI` when it became true and of `passMIDI` when it
became false, and a tick that calls neither leaves relay and thru as they were. -/
theorem outputs_follow_paused (a5 : Bool) (inputs : List Input) (s : State) (i : Input) :
    ((runLoop (setup a5).1 inputs).relay = true ↔ (runLoop (setup a5).1 inputs).paused = true) ∧
    ((runLoop (setup a5).1 inputs).thru = true ↔ (runLoop (setup a5).1 inputs).paused = false) ∧
    ((loop s i).1.paused ≠ s.paused →
      ((loop s i).1.paused = true → Event.pauseMIDI ∈ (loop s i).2) ∧
      ((loop s i).1.paused = false → Event.passMIDI ∈ (loop s i).2)) ∧
    ((Event.pauseMIDI ∉ (loop s i).2 ∧ Event.passMIDI ∉ (loop s i).2) →
      (loop s i).1.relay = s.relay ∧ (loop s i).1.thru = s.thru) := by
  have hrun := outputs_agree_run (setup a5).1 inputs ⟨rfl, rfl⟩
  refine ⟨?_, ?_, ?_, ?_⟩
  · rw [hrun.1]
  · rw [hrun.2]; cases (runLoop (setup a5).1 inputs).paused <;> simp
  · obtain ⟨_, hc⟩ := loop_cases s i
    rcases hc with hc | hc | hc
    · intro h; exact absurd hc.2.2.2.2.2.1 h
    · obtain ⟨_, _, _, _, _, _, h7, _, _, h10, h11⟩ := hc
      intro _
      rw [h7, h10, h11]
      cases s.paused <;> simp
    · intro h; exact absurd hc.2.2.2.2.1 h
  · obtain ⟨_, hc⟩ := loop_cases s i
    rcases hc with hc | hc | hc
    · intro _; exact ⟨hc.2.2.2.2.2.2.1, hc.2.2.2.2.2.2.2.1⟩
    · obtain ⟨_, _, _, _, _, _, _, _, _, h10, h11⟩ := hc
      intro h
      cases hp : s.paused
      · exact absurd (h10.2 hp) h.1
      · exact absurd (h11.2 hp) h.2
    · intro _; exact ⟨hc.2.2.2.2.2.1, hc.2.2.2.2.2.2.1⟩

/-! ## C5: end of the blue flash -/

theorem buttonBlock_flash_frame (s : State) (i : Input) :
    (buttonBlock s i).1.lcdIsBlue = s.lcdIsBlue ∧
    (buttonBlock s i).1.lastSysExTime = s.lastSysExTime := by
  unfold buttonBlock pauseMIDI passMIDI
  by_cases he : s.enable_button = true
  · by_cases hlow : s.button_ctr < BTN_LOW ∧ s.button_state = 1
    · rw [if_pos he, if_pos hlow]; exact ⟨rfl, rfl⟩
    · by_cases hhigh : s.button_ctr > BTN_HIGH ∧ s.button_state = 0
      · by_cases hg : elapsed i.msBtn s.lastButtonPress > DEBOUNCE_TIME
        · rw [if_pos he, if_neg hlow, if_pos hhigh, if_pos hg]
          cases hp : s.paused <;> simp
        · rw [if_pos he, if_neg hlow, if_pos hhigh, if_neg hg]; exact ⟨rfl, rfl⟩
      · rw [if_pos he, if_neg hlow, if_neg hhigh]; exact ⟨rfl, rfl⟩
  · rw [if_neg he]; exact ⟨rfl, rfl⟩

theorem lastBacklight_snoc (l : List Event) (c : Nat) :
    lastBacklight (l ++ [Event.setBacklight c]) = some c := by
  induction l with
  | nil => rfl
  | cons e l ih =>
    cases e <;> simp [lastBacklight, ih]

/-- C5. In a tick in which no message arrives and `lcdIsBlue` is set: if more
than 1000 ms have elapsed since `lastSysExTime`, the tick clears `lcdIsBlue` and
the last backlight colour requested in the tick is RED (0xff0000) when the enable
input is high and `paused` (as it stands after this tick's button handling) is
true, GREEN (0x00ff00) when enabled and not paused, 0x00FFFF when not enabled;
if at most 1000 ms have elapsed, `lcdIsBlue` stays set, the flash check requests
nothing, and all events of the tick are those of the button handling. -/
theorem flash_revert (s : State) (i : Input) (hmidi : i.midi = none)
    (hblue : s.lcdIsBlue = true) :
    (1000 < elapsed i.msFlash s.lastSysExTime →
      (loop s i).1.lcdIsBlue = false ∧
      lastBacklight (loop s i).2 =
        some (if i.a5 = true then (if (loop s i).1.paused = true then 0xff0000 else 0x00ff00)
              else 0x00FFFF)) ∧
    (elapsed i.msFlash s.lastSysExTime ≤ 1000 →
      (loop s i).1.lcdIsBlue = true ∧
      (flashBlock (midiBlock (buttonBlock (debounce s i) i).1 i).1 i).2 = [] ∧
      (loop s i).2 = (buttonBlock (debounce s i) i).2) := by
  obtain ⟨_, _, _, _, l5, _⟩ := loop_button_part s i
  have hpaused := (loop_button_part s i).2.2.2.1
  obtain ⟨b1, b2⟩ := buttonBlock_flash_frame (debounce s i) i
  obtain ⟨_, _, _, d4, d5, d6, _⟩ := debounce_frame s i
  have hen : (buttonBlock (debounce s i) i).1.enable_button = i.a5 := by
    rw [(buttonBlock_cases (debounce s i) i).2.1, d4]
  have hm : midiBlock (buttonBlock (debounce s i) i).1 i = ((buttonBlock (debounce s i) i).1, []) := by
    unfold midiBlock; rw [hmidi]
  have hb : (buttonBlock (debounce s i) i).1.lcdIsBlue = true := by rw [b1, d6, hblue]
  have ht : (buttonBlock (debounce s i) i).1.lastSysExTime = s.lastSysExTime := by rw [b2, d5]
  constructor
  · intro hlt
    have hcond : (buttonBlock (debounce s i) i).1.lcdIsBlue = true ∧
        elapsed i.msFlash (buttonBlock (debounce s i) i).1.lastSysExTime > SYSEX_FLASH_TIME := by
      rw [ht]; exact ⟨hb, hlt⟩
    rw [hpaused]
    unfold loop
    simp only [hm]
    unfold flashBlock
    rw [if_pos hcond, hen]
    refine ⟨rfl, ?_⟩
    simp only [List.append_nil]
    rw [lastBacklight_snoc]
    simp only [RED, GREEN]
  · intro hle
    have hcond : ¬ ((buttonBlock (debounce s i) i).1.lcdIsBlue = true ∧
        elapsed i.msFlash (buttonBlock (debounce s i) i).1.lastSysExTime > SYSEX_FLASH_TIME) := by
      rw [ht]; unfold SYSEX_FLASH_TIME; intro h; omega
    unfold loop
    simp only [hm]
    unfold flashBlock
    rw [if_neg hcond]
    exact ⟨hb, rfl, by simp⟩

set_option maxRecDepth 100000 in
/-- C5 at a concrete tick: a frame was received at 2000 ms while paused and
enabled; the tick at 3001 ms, with no further message, ends the flash and asks
for RED. -/
theorem flash_revert_witness :
    pausedAfterMessage.paused = true ∧ pausedAfterMessage.lcdIsBlue = true ∧
    (loop pausedAfterMessage (sampleTick 3001 true)).1.lcdIsBlue = false ∧
    lastBacklight (loop pausedAfterMessage (sampleTick 3001 true)).2 = some 0xff0000 :=
  ⟨by decide, by decide,
   ((flash_revert pausedAfterMessage (sampleTick 3001 true) rfl (by decide)).1 (by decide)).1,
   ((flash_revert pausedAfterMessage (sampleTick 3001 true) rfl (by decide)).1 (by decide)).2.trans
     (by decide)⟩

/-! ## C6: `displayCommand` -/

/-- C6. For every integer `c`, the lookup in `displayCommand` stays inside the 21
entries of `msc_command_type_strings` (it yields a name), and that name is
"INVALID" exactly when `c` is none of the `COMMAND` enumerator values, which are
0x01..0x0B and 0x11..0x14.  So 0, every negative value and every value from 21
on give "INVALID", and each enumerator gives its own name. -/
theorem displayCommand_total (c : Int) :
    msc_command_type_strings.length = 21 ∧
    (∃ name, displayCommand c = some name ∧
      (name = "INVALID" ↔ ∀ k : COMMAND, k.toInt ≠ c)) ∧
    ((∃ k : COMMAND, k.toInt = c) ↔ (0x01 ≤ c ∧ c ≤ 0x0B) ∨ (0x11 ≤ c ∧ c ≤ 0x14)) ∧
    (c = 0 ∨ c < 0 ∨ 21 ≤ c → displayCommand c = some "INVALID") ∧
    displayCommand COMMAND.GO.toInt = some "GO" ∧
    displayCommand COMMAND.STOP.toInt = some "STOP" ∧
    displayCommand COMMAND.RESUME.toInt = some "RESUME" ∧
    displayCommand COMMAND.TIMED_GO.toInt = some "TIMED GO" ∧
    displayCommand COMMAND.LOAD.toInt = some "LOAD" ∧
    displayCommand COMMAND.SET.toInt = some "SET" ∧
    displayCommand COMMAND.FIRE.toInt = some "FIRE" ∧
    displayCommand COMMAND.ALL_OFF.toInt = some "ALL OFF" ∧
    displayCommand COMMAND.RESTORE.toInt = some "RESTORE" ∧
    displayCommand COMMAND.RESET.toInt = some "RESET" ∧
    displayCommand COMMAND.GO_OFF.toInt = some "GO-OFF" ∧
    displayCommand COMMAND.STANDBY_PLUS.toInt = some "STANDBY+" ∧
    displayCommand COMMAND.STANDBY_MINUS.toInt = some "STANDBY-" ∧
    displayCommand COMMAND.SEQUENCE_PLUS.toInt = some "SEQUENCE+" ∧
    displayCommand COMMAND.SEQUENCE_MINUS.toInt = some "SEQUENCE-" := by
  have hout : ∀ d : Int, d < 0 ∨ 21 ≤ d → displayCommand d = some "INVALID" := by
    intro d hd
    unfold displayCommand
    rw [if_pos (by simpa [msc_command_type_strings] using hd)]
    rfl
  have hnot : ∀ d : Int, d < 0 ∨ 21 ≤ d → ∀ k : COMMAND, k.toInt ≠ d := by
    intro d hd k
    cases k <;> simp only [COMMAND.toInt] <;> omega
  refine ⟨rfl, ?_, ?_, ?_, by decide, by decide, by decide, by decide, by decide, by decide,
    by decide, by decide, by decide, by decide, by decide, by decide, by decide, by decide,
    by decide⟩
  · by_cases hd : c < 0 ∨ 21 ≤ c
    · exact ⟨"INVALID", hout c hd, fun _ => hnot c hd, fun _ => rfl⟩
    · have h0 : 0 ≤ c := by omega
      have h21 : c < 21 := by omega
      interval_cases c
      all_goals exact ⟨_, rfl, by decide⟩
  · constructor
    · rintro ⟨k, rfl⟩
      cases k <;> decide
    · rintro (⟨h1, h2⟩ | ⟨h1, h2⟩)
      · interval_cases c
        all_goals decide
      · interval_cases c
        all_goals decide
  · rintro (h | h | h)
    · subst h; decide
    · exact hout c (Or.inl h)
    · exact hout c (Or.inr h)

/-! ## C1: two toggles are more than 300 ms apart -/

theorem elapsed_toLong (now t : Nat) (h : t ≤ now) (hnow : now < 2 ^ 32) :
    elapsed now (toLong t) = now - t := by
  unfold elapsed toLong
  split <;> omega

/-- After a toggle at time `t` the stable state is 1; it returns to 0 only
through a falling-edge tick, which records its own clock reading.  So every
later toggle of the run happens more than 300 ms after `t`. -/
theorem flipTimes_after (inputs : List Input) (s : State) (t : Nat)
    (hsorted : List.Pairwise (fun a b => a ≤ b) (inputs.map (fun x => x.msBtn)))
    (hwrap : ∀ x ∈ inputs, x.msBtn < 2 ^ 32)
    (hafter : ∀ x ∈ inputs, t ≤ x.msBtn)
    (hinv : s.button_state = 1 ∨
      ∃ t1, t ≤ t1 ∧ s.lastButtonPress = toLong t1 ∧ ∀ x ∈ inputs, t1 ≤ x.msBtn) :
    ∀ u ∈ flipTimes s inputs, t + 300 < u := by
  induction inputs generalizing s with
  | nil => intro u hu; simp [flipTimes] at hu
  | cons x xs ih =>
    have hsorted2 := hsorted
    simp only [List.map_cons, List.pairwise_cons, List.mem_map, forall_exists_index,
      and_imp, forall_apply_eq_imp_iff₂] at hsorted2
    obtain ⟨hx, hxs⟩ := hsorted2
    have hwrap2 : ∀ y ∈ xs, y.msBtn < 2 ^ 32 := fun y hy => hwrap y (List.mem_cons_of_mem _ hy)
    have hafter2 : ∀ y ∈ xs, t ≤ y.msBtn := fun y hy => hafter y (List.mem_cons_of_mem _ hy)
    have htx : t ≤ x.msBtn := hafter x (List.mem_cons_self _ _)
    have hxw : x.msBtn < 2 ^ 32 := hwrap x (List.mem_cons_self _ _)
    obtain ⟨_, hc⟩ := loop_cases s x
    intro u hu
    unfold flipTimes at hu
    rcases hc with hc | hc | hc
    · obtain ⟨_, _, _, _, h5, h6, _⟩ := hc
      rw [if_neg (by rw [h6]; simp)] at hu
      exact ih (loop s x).1 hxs hwrap2 hafter2 (Or.inr ⟨x.msBtn, htx, h5, hx⟩) u hu
    · obtain ⟨_, _, h3, h4, h5, _, h7, _⟩ := hc
      have hflip : (loop s x).1.paused ≠ s.paused := by rw [h7]; cases s.paused <;> simp
      rw [if_pos hflip] at hu
      rcases List.mem_cons.1 hu with hu | hu
      · rcases hinv with hinv | ⟨t1, ht1, hlast, hle⟩
        · omega
        · have h1 : t1 ≤ x.msBtn := hle x (List.mem_cons_self _ _)
          rw [hlast, elapsed_toLong x.msBtn t1 h1 hxw] at h4
          omega
      · exact ih (loop s x).1 hxs hwrap2 hafter2 (Or.inl h5) u hu
    · obtain ⟨_, _, h3, h4, h5, _⟩ := hc
      rw [if_neg (by rw [h5]; simp)] at hu
      refine ih (loop s x).1 hxs hwrap2 hafter2 ?_ u hu
      rcases hinv with hinv | ⟨t1, ht1, hlast, hle⟩
      · exact Or.inl (by rw [h3]; exact hinv)
      · exact Or.inr ⟨t1, ht1, by rw [h4]; exact hlast,
          fun y hy => hle y (List.mem_cons_of_mem _ hy)⟩

theorem flipTimes_spaced (inputs : List Input) (s : State)
    (hsorted : List.Pairwise (fun a b => a ≤ b) (inputs.map (fun x => x.msBtn)))
    (hwrap : ∀ x ∈ inputs, x.msBtn < 2 ^ 32) :
    List.Pairwise (fun t u => t + 300 < u) (flipTimes s inputs) := by
  induction inputs generalizing s with
  | nil => simp [flipTimes]
  | cons x xs ih =>
    have hsorted2 := hsorted
    simp only [List.map_cons, List.pairwise_cons, List.mem_map, forall_exists_index,
      and_imp, forall_apply_eq_imp_iff₂] at hsorted2
    obtain ⟨hx, hxs⟩ := hsorted2
    have hwrap2 : ∀ y ∈ xs, y.msBtn < 2 ^ 32 := fun y hy => hwrap y (List.mem_cons_of_mem _ hy)
    have hrest := ih (loop s x).1 hxs hwrap2
    unfold flipTimes
    by_cases hflip : (loop s x).1.paused ≠ s.paused
    · rw [if_pos hflip]
      refine List.pairwise_cons.2 ⟨?_, hrest⟩
      have hst : (loop s x).1.button_state = 1 := by
        obtain ⟨_, hc⟩ := loop_cases s x
        rcases hc with hc | hc | hc
        · exact absurd hc.2.2.2.2.2.1 hflip
        · exact hc.2.2.2.2.1
        · exact absurd hc.2.2.2.2.1 hflip
      exact flipTimes_after xs (loop s x).1 x.msBtn hxs hwrap2 hx (Or.inl hst)
    · rw [if_neg hflip]
      exact hrest

/-- C1. Run `loop()` repeatedly from the state left by `setup()`, with clock
readings that never decrease and stay below 2^32 (no wrap), and any button,
enable and MIDI inputs.  List the clock readings of the ticks that flip `paused`:
any two of them, `t` earlier and `u` later, satisfy `t + 300 < u`.  Hence no tick
less than 300 ms after a flip flips `paused` again. -/
theorem toggles_spaced_by_debounce_time (a5 : Bool) (inputs : List Input)
    (hclock : List.Pairwise (fun a b => a ≤ b) (inputs.map (fun x => x.msBtn)))
    (hwrap : ∀ x ∈ inputs, x.msBtn < 2 ^ 32) :
    List.Pairwise (fun t u => t + 300 < u) (flipTimes (setup a5).1 inputs) :=
  flipTimes_spaced inputs (setup a5).1 hclock hwrap

set_option maxRecDepth 1000000 in
/-- C1 at a concrete run: two presses, toggling at 1000 ms and at 1500 ms. -/
theorem toggles_spaced_by_debounce_time_witness :
    flipTimes (setup true).1 twoPresses = [1000, 1500] ∧
    List.Pairwise (fun t u => t + 300 < u) (flipTimes (setup true).1 twoPresses) :=
  ⟨by decide,
   toggles_spaced_by_debounce_time true twoPresses (by decide) (by decide)⟩

/-! ## C7: fast toggling of the raw input -/

set_option maxRecDepth 1000000 in
/-- C7, as stated, fails: from the state left by `setup()` (counter 0, stable
state 0), with the enable input high and the time guard open in every tick, the
samples 29 pressed, 1 released, 23 pressed (all runs shorter than 30) take the
counter to 51, set `button_state` to 1 and flip `paused`. -/
theorem short_runs_still_toggle :
    runsShorterThan 30 shortRuns = true ∧
    (setup true).1.button_ctr = 0 ∧ (setup true).1.button_state = 0 ∧
    (∀ x ∈ shortRuns.map (sampleTick 1000), x.a5 = true) ∧
    guardOpen (setup true).1 (shortRuns.map (sampleTick 1000)) = true ∧
    (runLoop (setup true).1 (shortRuns.map (sampleTick 1000))).button_ctr = 51 ∧
    (runLoop (setup true).1 (shortRuns.map (sampleTick 1000))).button_state = 1 ∧
    (runLoop (setup true).1 (shortRuns.map (sampleTick 1000))).paused
      ≠ (setup true).1.paused := by
  decide

theorem pressedCount_cons (x : Input) (xs : List Input) :
    pressedCount (x :: xs) = (if x.buttonLow = true then 1 else 0) + pressedCount xs := by
  unfold pressedCount
  rw [List.countP_cons]
  omega

theorem releasedCount_cons (x : Input) (xs : List Input) :
    releasedCount (x :: xs) = (if x.buttonLow = true then 0 else 1) + releasedCount xs := by
  unfold releasedCount
  rw [List.countP_cons]
  cases x.buttonLow <;> simp [Nat.add_comm]

/-- While the stable state is 0 and the counter cannot exceed 50, no tick changes
`button_state` or `paused`.  `hpre` bounds the pressed surplus of every prefix
given the current counter, `hwin` that of every stretch. -/
theorem no_edge_aux (inputs : List Input) (s : State) (hst : s.button_state = 0)
    (hpre : ∀ n, s.button_ctr + pressedCount (inputs.take n)
      ≤ releasedCount (inputs.take n) + 50)
    (hwin : ∀ j n, pressedCount ((inputs.drop j).take n)
      ≤ releasedCount ((inputs.drop j).take n) + 50) (k : Nat) :
    (runLoop s (inputs.take k)).button_state = 0 ∧
    (runLoop s (inputs.take k)).paused = s.paused := by
  induction inputs generalizing s k with
  | nil => simp [runLoop, hst]
  | cons x xs ih =>
    cases k with
    | zero => simp [runLoop, hst]
    | succ k =>
      simp only [List.take_succ_cons, runLoop]
      obtain ⟨hc, hcases⟩ := loop_cases s x
      have hctr := debounce_ctr s x
      have h1 := hpre 1
      have hp0 : pressedCount ([] : List Input) = 0 := rfl
      have hr0 : releasedCount ([] : List Input) = 0 := rfl
      simp only [List.take_succ_cons, List.take_zero, pressedCount_cons, releasedCount_cons,
        hp0, hr0] at h1
      have hle : (debounce s x).button_ctr ≤ 50 := by
        rw [hctr]
        cases hb : x.buttonLow
        · simp only [hb, Bool.false_eq_true, if_false] at h1 ⊢
          split <;> omega
        · simp only [hb, if_true] at h1 ⊢
          split <;> omega
      have hstep : (loop s x).1.button_state = 0 ∧ (loop s x).1.paused = s.paused := by
        rcases hcases with h | h | h
        · have := h.2.2.1
          omega
        · have := h.2.1
          omega
        · exact ⟨by rw [h.2.2.1]; exact hst, h.2.2.2.2.1⟩
      have hwin2 : ∀ j n, pressedCount ((xs.drop j).take n)
          ≤ releasedCount ((xs.drop j).take n) + 50 := by
        intro j n
        have := hwin (j + 1) n
        simpa using this
      have hpre2 : ∀ n, (loop s x).1.button_ctr + pressedCount (xs.take n)
          ≤ releasedCount (xs.take n) + 50 := by
        intro n
        have hn := hpre (n + 1)
        have hw := hwin 1 n
        simp only [List.take_succ_cons, pressedCount_cons, releasedCount_cons] at hn
        simp only [List.drop_succ_cons, List.drop_zero] at hw
        rw [hc, hctr]
        cases hb : x.buttonLow
        · simp only [hb, Bool.false_eq_true, if_false] at hn h1 ⊢
          split <;> omega
        · simp only [hb, if_true] at hn h1 ⊢
          split <;> omega
      obtain ⟨r1, r2⟩ := ih (loop s x).1 hstep.1 hpre2 hwin2 k
      exact ⟨r1, by rw [r2, hstep.2]⟩

/-- C7, amended. Start with `button_ctr = 0` and `button_state = 0`.  For every
sequence of ticks in which no contiguous stretch has more than 50 (BTN_HIGH)
pressed samples in excess of its released samples, no tick changes
`button_state` and none flips `paused`, whatever the enable input and the clock. -/
theorem no_edge_without_surplus (s : State) (inputs : List Input)
    (hctr : s.button_ctr = 0) (hst : s.button_state = 0)
    (hwin : ∀ j n, pressedCount ((inputs.drop j).take n)
      ≤ releasedCount ((inputs.drop j).take n) + 50) (k : Nat) :
    (runLoop s (inputs.take k)).button_state = 0 ∧
    (runLoop s (inputs.take k)).paused = s.paused := by
  refine no_edge_aux inputs s hst ?_ hwin k
  intro n
  have := hwin 0 n
  simp only [List.drop_zero] at this
  omega

/-- C7 amended, at a concrete run: 29 pressed, 29 released, 21 pressed samples. -/
theorem no_edge_without_surplus_witness :
    (setup true).1.button_ctr = 0 ∧ (setup true).1.button_state = 0 ∧
    (runLoop (setup true).1 ((balancedRuns.map (sampleTick 1000)).take 79)).button_state = 0 ∧
    (runLoop (setup true).1 ((balancedRuns.map (sampleTick 1000)).take 79)).paused
      = (setup true).1.paused :=
  ⟨rfl, rfl,
   no_edge_without_surplus (setup true).1 (balancedRuns.map (sampleTick 1000)) rfl rfl
     (fun j n => by
        have h : pressedCount (((balancedRuns.map (sampleTick 1000)).drop j).take n)
            ≤ pressedCount (balancedRuns.map (sampleTick 1000)) :=
          List.Sublist.countP_le _ ((List.take_sublist _ _).trans (List.drop_sublist _ _))
        have h50 : pressedCount (balancedRuns.map (sampleTick 1000)) = 50 := by decide
        omega) 79⟩

/-! ## C8: the cue and list strings of a decoded frame -/

theorem scanField_chars_length (buf : List Nat) (term cap : Nat) (n pos : Nat)
    (chars : List Nat) (h : chars.length ≤ cap) :
    (scanField buf term cap n pos chars).chars.length ≤ cap := by
  induction n generalizing pos chars with
  | zero => exact h
  | succ n ih =>
    unfold scanField
    split
    · exact h
    · apply ih
      split
      · simp only [List.length_append, List.length_singleton]; omega
      · exact h

theorem scanField_reads (buf : List Nat) (term cap : Nat) (n pos : Nat) (chars : List Nat) :
    ∀ i ∈ (scanField buf term cap n pos chars).reads, pos ≤ i ∧ i < pos + n := by
  induction n generalizing pos chars with
  | zero => intro i hi; simp [scanField] at hi
  | succ n ih =>
    intro i hi
    unfold scanField at hi
    split at hi
    · simp only [List.mem_singleton] at hi; omega
    · simp only [List.mem_cons] at hi
      rcases hi with hi | hi
      · omega
      · have := ih _ _ i hi
        omega

theorem cstr_snoc_length (chars : List Nat) : (cstr (chars ++ [0])).length ≤ chars.length := by
  unfold cstr
  induction chars with
  | nil => simp
  | cons c cs ih =>
    simp only [List.cons_append, List.takeWhile_cons]
    split
    · simp only [List.length_cons]; omega
    · simp

theorem getD_of_drop_eq_cons (buf : List Nat) (pos x : Nat) (tl : List Nat)
    (h : buf.drop pos = x :: tl) : buf.getD pos 0 = x ∧ buf.drop (pos + 1) = tl := by
  constructor
  · have h0 : (buf.drop pos)[0]? = some x := by rw [h]; simp
    rw [List.getElem?_drop] at h0
    simp only [Nat.add_zero] at h0
    rw [List.getD_eq_getElem?_getD, h0]
    rfl
  · have : buf.drop (pos + 1) = (buf.drop pos).drop 1 := by
      rw [List.drop_drop]
    rw [this, h]
    rfl

/-- Scanning a field whose bytes `digits` differ from the terminator keeps the
first `cap` of them, whether the field ends with the buffer (`n` bytes remain,
all of them digits) or with a terminator byte that lies inside the buffer. -/
theorem scanField_digits (buf : List Nat) (term cap : Nat) (digits tail : List Nat)
    (hd : ∀ d ∈ digits, d ≠ term) (n pos : Nat) (chars : List Nat)
    (hbuf : buf.drop pos = digits ++ tail)
    (hn : n = digits.length ∨ (digits.length < n ∧ ∃ rest, tail = term :: rest)) :
    (scanField buf term cap n pos chars).chars = chars ++ digits.take (cap - chars.length) := by
  induction digits generalizing n pos chars with
  | nil =>
    rcases hn with hn | ⟨hn, rest, htail⟩
    · simp only [List.length_nil] at hn
      subst hn
      simp [scanField]
    · obtain ⟨n, rfl⟩ : ∃ m, n = m + 1 := ⟨n - 1, by simp only [List.length_nil] at hn; omega⟩
      obtain ⟨h1, _⟩ := getD_of_drop_eq_cons buf pos term rest (by simpa [htail] using hbuf)
      unfold scanField
      rw [if_pos h1]
      simp
  | cons d ds ih =>
    obtain ⟨n, rfl⟩ : ∃ m, n = m + 1 := by
      refine ⟨n - 1, ?_⟩
      simp only [List.length_cons] at hn
      omega
    obtain ⟨h1, h2⟩ := getD_of_drop_eq_cons buf pos d (ds ++ tail) (by simpa using hbuf)
    have hne : ¬ buf.getD pos 0 = term := by
      rw [h1]; exact hd d (List.mem_cons_self _ _)
    have hn2 : n = ds.length ∨ (ds.length < n ∧ ∃ rest, tail = term :: rest) := by
      simp only [List.length_cons] at hn
      rcases hn with hn | ⟨hn, hrest⟩
      · exact Or.inl (by omega)
      · exact Or.inr ⟨by omega, hrest⟩
    unfold scanField
    rw [if_neg hne]
    simp only
    rw [ih (fun e he => hd e (List.mem_cons_of_mem _ he)) n (pos + 1) _ h2 hn2, h1]
    by_cases hlt : chars.length < cap
    · rw [if_pos hlt]
      obtain ⟨k, hk⟩ : ∃ k, cap - chars.length = k + 1 := ⟨cap - chars.length - 1, by omega⟩
      have hk2 : cap - (chars ++ [d]).length = k := by
        simp only [List.length_append, List.length_singleton]; omega
      rw [hk, hk2]
      simp
    · rw [if_neg hlt]
      have hk : cap - chars.length = 0 := by omega
      rw [hk]
      simp

theorem readHeader_reads (buf : List Nat) (len off : Nat) :
    ∀ i ∈ (readHeader buf len off).2, i < len := by
  intro i hi
  unfold readHeader at hi
  split at hi
  · simp only [List.mem_singleton] at hi; omega
  · simp at hi

theorem decode_cue_list (L : FrameLayout) (buf : List Nat) (len : Nat) :
    ∃ cs ls : List Nat, cs.length ≤ 8 ∧ ls.length ≤ 8 ∧
      (decode L buf len).packet.cue = cs ++ [0] ∧
      (decode L buf len).packet.list = ls ++ [0] := by
  unfold decode
  by_cases hlen : len < L.headerLen
  · simp only [if_pos hlen]
    exact ⟨[], [], by simp, by simp, rfl, rfl⟩
  · simp only [if_neg hlen]
    refine ⟨_, _, ?_, ?_, rfl, rfl⟩
    · split
      · exact scanField_chars_length _ _ _ _ _ _ (by simp)
      · simp
    · split
      · exact scanField_chars_length _ _ _ _ _ _ (by simp)
      · simp

theorem decode_reads (L : FrameLayout) (buf : List Nat) (len : Nat) :
    ∀ i ∈ (decode L buf len).reads, i < len := by
  have hh := readHeader_reads buf len
  unfold decode
  by_cases hlen : len < L.headerLen
  · simp only [if_pos hlen, List.mem_append]
    rintro i ((hi | hi) | hi) <;> exact hh _ i hi
  · simp only [if_neg hlen, List.mem_append]
    rintro i ((((hi | hi) | hi) | hi) | hi)
    · exact hh _ i hi
    · exact hh _ i hi
    · exact hh _ i hi
    · split at hi
      · have := scanField_reads _ _ _ _ _ _ i hi
        omega
      · simp at hi
    · split at hi
      · have := scanField_reads _ _ _ _ _ _ i hi
        omega
      · simp at hi

/-- C8. For every layout, buffer and length: the bytes stored for `cue` and for
`list` fit the 9-byte arrays, end in a NUL, and the C strings they hold have at
most 8 characters; every buffer index read during decoding is below `len`; and
when the cue field of a frame is twelve ASCII digits, ended either by the end of
the buffer (`len` is the index after the last digit) or by a terminator byte
inside the buffer, and the command carries a cue, the stored cue is the first
eight digits followed by NUL. -/
theorem decode_strings_bounded (L : FrameLayout) (buf : List Nat) (len : Nat) :
    ((decode L buf len).packet.cue.length ≤ MAX_CUE_LEN + 1 ∧
      (decode L buf len).packet.cue.getLast? = some 0 ∧
      (cstr (decode L buf len).packet.cue).length ≤ MAX_CUE_LEN) ∧
    ((decode L buf len).packet.list.length ≤ MAX_LIST_LEN + 1 ∧
      (decode L buf len).packet.list.getLast? = some 0 ∧
      (cstr (decode L buf len).packet.list).length ≤ MAX_LIST_LEN) ∧
    (∀ i ∈ (decode L buf len).reads, i < len) ∧
    (∀ header digits tail : List Nat,
      buf = header ++ digits ++ tail →
      header.length = L.headerLen → digits.length = 12 →
      (∀ d ∈ digits, 0x30 ≤ d ∧ d ≤ 0x39) →
      ¬ (0x30 ≤ L.terminator ∧ L.terminator ≤ 0x39) →
      (len = L.headerLen + 12 ∨
        (L.headerLen + 12 < len ∧ ∃ rest, tail = L.terminator :: rest)) →
      (typeOfByte (readHeader buf len L.typeOffset).1 ≠ TYPE.Unknown ∨
        L.extractUnknown = true) →
      L.carriesCue (readHeader buf len L.commandOffset).1 = true →
      (decode L buf len).packet.cue = digits.take 8 ++ [0]) := by
  obtain ⟨cs, ls, hcs, hls, hcue, hlist⟩ := decode_cue_list L buf len
  refine ⟨?_, ?_, decode_reads L buf len, ?_⟩
  · rw [hcue]
    refine ⟨?_, by simp, ?_⟩
    · simp only [List.length_append, List.length_singleton, MAX_CUE_LEN]; omega
    · exact le_trans (cstr_snoc_length cs) hcs
  · rw [hlist]
    refine ⟨?_, by simp, ?_⟩
    · simp only [List.length_append, List.length_singleton, MAX_LIST_LEN]; omega
    · exact le_trans (cstr_snoc_length ls) hls
  · intro header digits tail hbuf hhdr hdig hascii hterm hend hfields hcarries
    have hdrop : buf.drop L.headerLen = digits ++ tail := by
      rw [hbuf, ← hhdr, List.append_assoc, List.drop_left]
    have hne : ∀ d ∈ digits, d ≠ L.terminator := by
      intro d hd heq
      have := hascii d hd
      rw [heq] at this
      exact hterm this
    have hn : len - L.headerLen = digits.length ∨
        (digits.length < len - L.headerLen ∧ ∃ rest, tail = L.terminator :: rest) := by
      rcases hend with h | ⟨h, hrest⟩
      · exact Or.inl (by omega)
      · exact Or.inr ⟨by omega, hrest⟩
    have hscan := scanField_digits buf L.terminator MAX_CUE_LEN digits tail hne
      (len - L.headerLen) L.headerLen [] hdrop hn
    have hf : (decide (typeOfByte (readHeader buf len L.typeOffset).1 ≠ TYPE.Unknown)
        || L.extractUnknown) = true := by
      rcases hfields with h | h
      · simp [h]
      · simp [h]
    have hlen : ¬ len < L.headerLen := by
      rcases hend with h | ⟨h, _⟩ <;> omega
    unfold decode
    simp only [if_neg hlen, hf, hcarries, Bool.and_self, if_true, hscan]
    simp [MAX_CUE_LEN]

set_option maxRecDepth 100000 in
/-- C8 at a concrete frame, decoded twice.  With all 22 bytes the cue
"123456789012" ends at the NUL and is stored as "12345678", the list number "7"
as "7", and the indices read are below 22.  With `len = 18` the same cue ends
with the buffer and is stored as "12345678" again, the list is empty, and the
indices read are below 18. -/
theorem decode_strings_bounded_witness :
    (decode standardLayout longCueFrame 22).packet.cue
      = [0x31, 0x32, 0x33, 0x34, 0x35, 0x36, 0x37, 0x38, 0] ∧
    (decode standardLayout longCueFrame 22).packet.list = [0x37, 0] ∧
    (∀ i ∈ (decode standardLayout longCueFrame 22).reads, i < 22) ∧
    (decode standardLayout longCueFrame 18).packet.cue
      = [0x31, 0x32, 0x33, 0x34, 0x35, 0x36, 0x37, 0x38, 0] ∧
    (decode standardLayout longCueFrame 18).packet.list = [0] ∧
    (∀ i ∈ (decode standardLayout longCueFrame 18).reads, i < 18) :=
  ⟨((decode_strings_bounded standardLayout longCueFrame 22).2.2.2
      [0xF0, 0x7F, 0x01, 0x02, 0x10, 0x01]
      [0x31, 0x32, 0x33, 0x34, 0x35, 0x36, 0x37, 0x38, 0x39, 0x30, 0x31, 0x32]
      [0x00, 0x37, 0x00, 0xF7] rfl rfl rfl (by decide) (by decide)
      (Or.inr ⟨by decide, [0x37, 0x00, 0xF7], rfl⟩) (by decide) (by decide)),
   by decide,
   (decode_strings_bounded standardLayout longCueFrame 22).2.2.1,
   ((decode_strings_bounded standardLayout longCueFrame 18).2.2.2
      [0xF0, 0x7F, 0x01, 0x02, 0x10, 0x01]
      [0x31, 0x32, 0x33, 0x34, 0x35, 0x36, 0x37, 0x38, 0x39, 0x30, 0x31, 0x32]
      [0x00, 0x37, 0x00, 0xF7] rfl rfl rfl (by decide) (by decide)
      (Or.inl rfl) (by decide) (by decide)),
   by decide,
   (decode_strings_bounded standardLayout longCueFrame 18).2.2.1⟩

end MSCFirmware
